import Mathlib

/-!
Verification of the structured curvature-matrix core of the `asdfghjkl`
repository (`asdfghjkl/symmatrix.py` and `asdfghjkl/precondition/kbfgs.py`)
against its natural-language specification.

The Python/torch code is shallowly embedded:
* exact rationals (`ℚ`) stand for floating-point scalars;
* fallible torch/Python operations return `Except PyErr _`;
* in-place mutation is modelled by returning the updated value;
* numeric routines that live outside the two source files (`utils.py`) or in
  external libraries (`torch.linalg`) are modelled from the specification or
  passed in as explicit function arguments, as noted at each definition.
-/

/-- Errors surfaced by the embedded Python/torch code. -/
inductive PyErr where
  /-- a torch shape-mismatch `RuntimeError` (the spec's `ShapeError`) -/
  | shape
  /-- a failing Python `assert` -/
  | assertion
  /-- `torch.matmul` applied to an operand with fewer than 1 dimension -/
  | matmulDim
  /-- other torch `RuntimeError`s (ambiguous truth value, broadcast failure, …) -/
  | runtime
  /-- a Python `TypeError`/`AttributeError` (an operation on `None`) -/
  | typeErr
deriving DecidableEq, Repr

/-! ### Lower-triangular packing (`symmatrix.py` lines 21–64)

A square 2-D torch tensor is modelled as a size `n` together with an entry
function `ℕ → ℕ → ℚ`; only entries with both indices below `n` are
meaningful.  `torch.tril_indices(n, n)` enumerates the lower-triangular
index pairs in row-major order. -/

/-- The index pairs produced by `torch.tril_indices(n, n)`, row-major. -/
def trilPairs (n : ℕ) : List (ℕ × ℕ) :=
  (List.range n).flatMap fun i => (List.range (i + 1)).map fun j => (i, j)

/-- `matrix_to_tril` (symmatrix.py:21): pack the lower triangle of an `n×n`
matrix into a flat 1-D array, row direction. -/
def matrix_to_tril (n : ℕ) (M : ℕ → ℕ → ℚ) : List ℚ :=
  (trilPairs n).map fun p => M p.1 p.2

/-- `get_n_cols_by_tril` (symmatrix.py:55): recover the column count of the
original matrix from the packed length as `int(sqrt(2*numel + 0.25) - 0.5)`.
In exact arithmetic `sqrt(2*L + 1/4) - 1/2 = (sqrt(8*L + 1) - 1)/2`, and
`int(-)` truncates the nonnegative value downward, so the floor is
`(Nat.sqrt (8*L + 1) - 1) / 2`. -/
def get_n_cols_by_tril (numel : ℕ) : ℕ :=
  (Nat.sqrt (8 * numel + 1) - 1) / 2

/-- The packed length `n*(n+1)/2` of the lower triangle of an `n×n` matrix. -/
def trilNumel (n : ℕ) : ℕ := n * (n + 1) / 2

/-- The entry the torch index assignment
`rst[tril_indices[0], tril_indices[1]] = tril` writes at `(i, j)`: the
element of `tril` at the position of `(i, j)` in the row-major pair list
(which is `i*(i+1)/2 + j`, see `trilPairs_getD`), and `0` (from
`torch.zeros`) elsewhere. -/
def trilUnpackEntry (tril : List ℚ) (n i j : ℕ) : ℚ :=
  if (i, j) ∈ trilPairs n then tril.getD (trilNumel i + j) 0 else 0

/-- `tril_to_matrix` (symmatrix.py:36): unpack a packed lower triangle into a
full symmetric matrix.  The index assignment requires `tril` to have exactly
as many entries as there are lower-triangular index pairs; otherwise torch
raises a shape-mismatch `RuntimeError`.  `rst + rst.T - diag(diag(rst))`
symmetrizes the result. -/
def tril_to_matrix (tril : List ℚ) : Except PyErr (ℕ × (ℕ → ℕ → ℚ)) :=
  let n := get_n_cols_by_tril tril.length
  if (trilPairs n).length = tril.length then
    Except.ok (n, fun i j =>
      trilUnpackEntry tril n i j + trilUnpackEntry tril n j i -
        if i = j then trilUnpackEntry tril n i i else 0)
  else
    Except.error PyErr.shape

/-! ### Flat tensors

A torch tensor for the structural embedding: a shape and row-major flat
data.  Elementwise arithmetic is modelled for same-shaped operands (the only
case the claims below exercise); broadcasting is modelled only where a claim
depends on it (`broadcastShapes`). -/

structure Tensor where
  shape : List ℕ
  data : List ℚ
deriving DecidableEq, Repr

/-- `torch.Tensor.add`/`add_` for same-shaped operands: elementwise sum. -/
def Tensor.add (a b : Tensor) : Tensor :=
  ⟨a.shape, List.zipWith (· + ·) a.data b.data⟩

/-- `torch.Tensor.mul`/`mul_` by a Python scalar. -/
def Tensor.smul (a : Tensor) (c : ℚ) : Tensor :=
  ⟨a.shape, a.data.map (· * c)⟩

/-- `self_value + other_value` if both are present, otherwise whichever is
present: the accumulation pattern of `SymMatrix.__add__`/`__iadd__` and
`Diag.__add__`/`__iadd__`. -/
def combineOpt {α : Type} (f : α → α → α) : Option α → Option α → Option α
  | x, none => x
  | some x, some y => some (f x y)
  | none, some y => some y

/-- Apply a binary operation under `Option` (both operands are present
whenever the source reaches the operation). -/
def opt2 {α : Type} (f : α → α → α) : Option α → Option α → Option α
  | some a, some b => some (f a b)
  | _, _ => none

/-! ### `Kron`, `Diag`, `UnitWise`, `SymMatrix` (symmatrix.py:83–655)

Structural embedding: which sub-representations and caches are present, and
the value flow of accumulation and scaling.  The lazily cached
`_A_dim`/`_B_dim` fields of `Kron` are derived data and not modelled. -/

structure Kron where
  A : Option Tensor
  B : Option Tensor
  A_inv : Option Tensor
  B_inv : Option Tensor
deriving DecidableEq, Repr

/-- `Kron.has_data` (symmatrix.py:337). -/
def Kron.hasData (k : Kron) : Bool := k.A.isSome && k.B.isSome

/-- `Kron.__add__` (symmatrix.py:309): if the right operand holds no factor
data the receiver itself is returned; otherwise a fresh `Kron` is
constructed, and `__init__` (symmatrix.py:302) leaves
`A_inv = B_inv = None`. -/
def Kron.add (s o : Kron) : Kron :=
  if !o.hasData then s
  else if s.hasData then
    { A := opt2 Tensor.add s.A o.A, B := opt2 Tensor.add s.B o.B,
      A_inv := none, B_inv := none }
  else { A := o.A, B := o.B, A_inv := none, B_inv := none }

/-- `Kron.__iadd__` (symmatrix.py:321): in-place accumulation; the
receiver's cached inverses are left in place. -/
def Kron.iadd (s o : Kron) : Kron :=
  if !o.hasData then s
  else if s.hasData then
    { s with A := opt2 Tensor.add s.A o.A, B := opt2 Tensor.add s.B o.B }
  else { s with A := o.A, B := o.B }

/-- `Kron.mul_` (symmatrix.py:352): unguarded in-place scaling of both
factors; with a missing factor the Python call on `None` raises. -/
def Kron.mul (k : Kron) (c : ℚ) : Option Kron :=
  match k.A, k.B with
  | some a, some b => some { k with A := some (a.smul c), B := some (b.smul c) }
  | _, _ => none

structure Diag where
  weight : Option Tensor
  bias : Option Tensor
  weight_inv : Option Tensor
  bias_inv : Option Tensor
deriving DecidableEq, Repr

/-- `Diag.__add__` (symmatrix.py:440): a fresh `Diag` with per-leaf
accumulation (`__init__` leaves the cached reciprocals `None`). -/
def Diag.add (s o : Diag) : Diag :=
  { weight := combineOpt Tensor.add s.weight o.weight,
    bias := combineOpt Tensor.add s.bias o.bias,
    weight_inv := none, bias_inv := none }

/-- `Diag.__iadd__` (symmatrix.py:458). -/
def Diag.iadd (s o : Diag) : Diag :=
  { s with weight := combineOpt Tensor.add s.weight o.weight,
           bias := combineOpt Tensor.add s.bias o.bias }

/-- `Diag.mul_` (symmatrix.py:483): guarded by presence. -/
def Diag.mul (d : Diag) (c : ℚ) : Diag :=
  { d with weight := d.weight.map (Tensor.smul · c),
           bias := d.bias.map (Tensor.smul · c) }

structure UnitWise where
  data : Option Tensor
  inv : Option Tensor
deriving DecidableEq, Repr

/-- `UnitWise.has_data` (symmatrix.py:592). -/
def UnitWise.hasData (u : UnitWise) : Bool := u.data.isSome

/-- `UnitWise.__add__` (symmatrix.py:572). -/
def UnitWise.add (s o : UnitWise) : UnitWise :=
  if !o.hasData then s
  else if s.hasData then { data := opt2 Tensor.add s.data o.data, inv := none }
  else { data := o.data, inv := none }

/-- `UnitWise.__iadd__` (symmatrix.py:582). -/
def UnitWise.iadd (s o : UnitWise) : UnitWise :=
  if !o.hasData then s
  else if s.hasData then { s with data := opt2 Tensor.add s.data o.data }
  else { s with data := o.data }

/-- `UnitWise.mul_` (symmatrix.py:595): guarded by presence. -/
def UnitWise.mul (u : UnitWise) (c : ℚ) : UnitWise :=
  { u with data := u.data.map (Tensor.smul · c) }

structure SymMatrix where
  data : Option Tensor
  kron : Option Kron
  diag : Option Diag
  unit : Option UnitWise
  inv : Option Tensor
deriving DecidableEq, Repr

/-- `SymMatrix.__add__` (symmatrix.py:117): attribute-wise combination into
a fresh `SymMatrix` whose `inv` is `None`. -/
def SymMatrix.add (s o : SymMatrix) : SymMatrix :=
  { data := combineOpt Tensor.add s.data o.data,
    kron := combineOpt Kron.add s.kron o.kron,
    diag := combineOpt Diag.add s.diag o.diag,
    unit := combineOpt UnitWise.add s.unit o.unit,
    inv := none }

/-- `SymMatrix.__iadd__` (symmatrix.py:134): attribute-wise in-place
accumulation (the receiver's `inv` field is not touched). -/
def SymMatrix.iadd (s o : SymMatrix) : SymMatrix :=
  { s with data := combineOpt Tensor.add s.data o.data,
           kron := combineOpt Kron.iadd s.kron o.kron,
           diag := combineOpt Diag.iadd s.diag o.diag,
           unit := combineOpt UnitWise.iadd s.unit o.unit }

/-- `SymMatrix.mul_` (symmatrix.py:145): scale every populated
sub-representation in place; a populated `Kron` missing a factor raises in
`Kron.mul_`. -/
def SymMatrix.mul (s : SymMatrix) (c : ℚ) : Option SymMatrix :=
  match s.kron with
  | none => some { s with data := s.data.map (Tensor.smul · c),
                          diag := s.diag.map (Diag.mul · c),
                          unit := s.unit.map (UnitWise.mul · c) }
  | some k =>
    match k.mul c with
    | none => none
    | some k2 => some { s with data := s.data.map (Tensor.smul · c),
                               kron := some k2,
                               diag := s.diag.map (Diag.mul · c),
                               unit := s.unit.map (UnitWise.mul · c) }

/-- The stored (non-cache) values of a `SymMatrix`, sub-representation by
sub-representation. -/
def SymMatrix.stored (s : SymMatrix) :
    Option Tensor × Option (Option Tensor × Option Tensor) ×
      Option (Option Tensor × Option Tensor) × Option (Option Tensor) :=
  (s.data, s.kron.map fun k => (k.A, k.B),
    s.diag.map fun d => (d.weight, d.bias), s.unit.map fun u => u.data)

/-- Matching optional tensors: both absent, or both present with equal
shapes. -/
def optShapeMatch : Option Tensor → Option Tensor → Bool
  | none, none => true
  | some a, some b => a.shape == b.shape
  | _, _ => false

/-- Matching `kron` sub-representations: both absent, or both present with
both factors held and matching shapes. -/
def kronMatchB : Option Kron → Option Kron → Bool
  | none, none => true
  | some k, some k2 =>
    k.hasData && k2.hasData && optShapeMatch k.A k2.A && optShapeMatch k.B k2.B
  | _, _ => false

/-- Matching `diag` sub-representations. -/
def diagMatchB : Option Diag → Option Diag → Bool
  | none, none => true
  | some d, some d2 =>
    optShapeMatch d.weight d2.weight && optShapeMatch d.bias d2.bias
  | _, _ => false

/-- Matching `unit` sub-representations. -/
def unitMatchB : Option UnitWise → Option UnitWise → Bool
  | none, none => true
  | some u, some u2 => optShapeMatch u.data u2.data
  | _, _ => false

/-- Two `SymMatrix` instances with matching populated sub-representations:
the same attributes and leaves are populated, with matching shapes, and a
populated `Kron` holds both factors. -/
def SymMatrix.matchesRep (s o : SymMatrix) : Bool :=
  optShapeMatch s.data o.data && kronMatchB s.kron o.kron &&
    diagMatchB s.diag o.diag && unitMatchB s.unit o.unit

/-- A populated `kron` sub-representation holds both factors (what
`SymMatrix.mul_` needs to run). -/
def SymMatrix.kronPopulated (s : SymMatrix) : Bool :=
  match s.kron with
  | none => true
  | some k => k.hasData

/-- Descending insertion. -/
def insertDesc (x : ℚ) : List ℚ → List ℚ
  | [] => [x]
  | y :: ys => if y ≤ x then x :: y :: ys else y :: insertDesc x ys

/-- `torch.sort(v, descending=True)[0]`. -/
def sortDesc : List ℚ → List ℚ
  | [] => []
  | x :: xs => insertDesc x (sortDesc xs)

/-- `SymMatrix.eigenvalues` (symmatrix.py:156): `assert self.has_data`, then
sort `symeig(self.data)` descending.  `symeig` (`torch.linalg.eigvalsh`,
symmatrix.py:67) is external library code and is passed as a function
argument. -/
def SymMatrix.eigenvalues (symeig : Tensor → Tensor) (s : SymMatrix) :
    Except PyErr Tensor :=
  match s.data with
  | none => Except.error PyErr.assertion
  | some d => Except.ok ⟨[(symeig d).data.length], sortDesc (symeig d).data⟩

/-- `SymMatrix.top_eigenvalue` (symmatrix.py:161): `assert self.has_data`,
then `symeig(self.data).max().item()`. -/
def SymMatrix.top_eigenvalue (symeig : Tensor → Tensor) (s : SymMatrix) :
    Except PyErr ℚ :=
  match s.data with
  | none => Except.error PyErr.assertion
  | some d =>
    match (symeig d).data.max? with
    | some v => Except.ok v
    | none => Except.error PyErr.runtime

/-- `SymMatrix.trace` (symmatrix.py:166): `assert self.has_data`, then
`torch.diag(self.data).sum()` (`diag` extracts the diagonal of a 2-D tensor
and embeds a 1-D one as a diagonal matrix; other ranks raise). -/
def SymMatrix.trace (s : SymMatrix) : Except PyErr ℚ :=
  match s.data with
  | none => Except.error PyErr.assertion
  | some d =>
    match d.shape with
    | [r, c] =>
      Except.ok (((List.range (min r c)).map fun i => d.data.getD (i * c + i) 0).sum)
    | [_] => Except.ok d.data.sum
    | _ => Except.error PyErr.runtime

/-! ### `UnitWise.mvp` branch semantics (symmatrix.py:636–655)

The branch condition is `vec_weight.shape == vec_bias and
vec_weight.shape[-1] == 2`.  The left comparand of `==` is a `torch.Size`
(a tuple) compared against a tensor: `tuple.__eq__` yields `NotImplemented`
and Python falls back to the reflected `Tensor.__eq__`, an elementwise
comparison of `vec_bias` against the 1-D integer tensor of the shape, with
broadcasting; the surrounding `if`/`and` then call `bool()` on the
resulting tensor, which raises unless it has exactly one element. -/

/-- Right-aligned torch shape broadcast. -/
def bcastRev : List ℕ → List ℕ → Option (List ℕ)
  | [], ys => some ys
  | xs, [] => some xs
  | x :: xs, y :: ys =>
    match bcastRev xs ys with
    | none => none
    | some rest =>
      if x = y then some (x :: rest)
      else if x = 1 then some (y :: rest)
      else if y = 1 then some (x :: rest)
      else none

def broadcastShapes (a b : List ℕ) : Option (List ℕ) :=
  (bcastRev a.reverse b.reverse).map List.reverse

/-- `vec_weight.shape == vec_bias` coerced by `bool()`: succeeds only when
the broadcast elementwise comparison has exactly one element, in which case
it compares `vec_bias`'s single entry with the (then single) dimension entry
of the weight's shape. -/
def shapeEqBiasCond (wShape : List ℕ) (bias : Tensor) : Except PyErr Bool :=
  match broadcastShapes bias.shape [wShape.length] with
  | none => Except.error PyErr.runtime
  | some res =>
    if res.prod = 1 then
      Except.ok (decide (bias.data.getD 0 0 = ((wShape.getD 0 0 : ℕ) : ℚ)))
    else Except.error PyErr.runtime

/-- The full branch condition
`vec_weight.shape == vec_bias and vec_weight.shape[-1] == 2`
(`shape[-1]` on a 0-dim tensor is an `IndexError`). -/
def bnBranchCond (wShape : List ℕ) (bias : Tensor) : Except PyErr Bool :=
  match shapeEqBiasCond wShape bias with
  | Except.error e => Except.error e
  | Except.ok true =>
    match wShape.getLast? with
    | some d => Except.ok (decide (d = 2))
    | none => Except.error PyErr.runtime
  | Except.ok false => Except.ok false

/-- `torch.stack([w, b], dim=1)` payload for two same-shaped 1-D tensors
(the shape agreement is checked at the call site). -/
def stack2dim1 (w b : Tensor) : Tensor :=
  ⟨[w.shape.getD 0 0, 2],
    (List.range (w.shape.getD 0 0)).flatMap fun i =>
      [w.data.getD i 0, b.data.getD i 0]⟩

/-- `Tensor.unsqueeze(2)` on a 2-D tensor. -/
def unsqueeze2 (t : Tensor) : Tensor :=
  match t.shape with
  | [a, b] => ⟨[a, b, 1], t.data⟩
  | _ => t

/-- `torch.hstack([vec_weight, vec_bias.unsqueeze(1)])` for a 2-D weight and
a 1-D bias: a `(r, c+1)` tensor whose rows are the weight rows with the bias
entry appended.  Other ranks (mixed-dimension `cat`, 0-dim `unsqueeze(1)`)
are modelled as raising. -/
def hstackWB (w bias : Tensor) : Except PyErr Tensor :=
  match bias.shape, w.shape with
  | [f], [r, c] =>
    if r = f then
      Except.ok ⟨[r, c + 1], (List.range r).flatMap fun i =>
        ((List.range c).map fun j => w.data.getD (i * c + j) 0) ++
          [bias.data.getD i 0]⟩
    else Except.error PyErr.runtime
  | _, _ => Except.error PyErr.runtime

/-- Batched `torch.matmul` of two 3-D operands (batch dimension broadcast
when one side's is 1); other ranks are not reached here and are modelled as
raising. -/
def matmul3 (m v : Tensor) : Except PyErr Tensor :=
  match m.shape, v.shape with
  | [f1, r, c], [f2, c2, p] =>
    if c = c2 ∧ (f1 = f2 ∨ f1 = 1 ∨ f2 = 1) then
      Except.ok ⟨[max f1 f2, r, p],
        (List.range (max f1 f2)).flatMap fun b =>
          (List.range r).flatMap fun i =>
            (List.range p).map fun q =>
              ((List.range c).map fun j =>
                m.data.getD ((if f1 = 1 then 0 else b) * (r * c) + i * c + j) 0 *
                  v.data.getD ((if f2 = 1 then 0 else b) * (c2 * p) + j * p + q) 0).sum⟩
    else Except.error PyErr.runtime
  | _, _ => Except.error PyErr.runtime

/-- `.squeeze(2)` on the `(f, k, 1)` matmul result. -/
def squeezeLast (t : Tensor) : Tensor :=
  match t.shape with
  | [a, b, 1] => ⟨[a, b], t.data⟩
  | _ => t

/-- Column `j` of a 2-D tensor (`t[:, j]`). -/
def column2 (t : Tensor) (j : ℕ) : Tensor :=
  match t.shape with
  | [a, b] => ⟨[a], (List.range a).map fun i => t.data.getD (i * b + j) 0⟩
  | _ => ⟨[0], []⟩

/-- All but the last column of a 2-D tensor (`t[:, :-1]`). -/
def dropLastCol (t : Tensor) : Tensor :=
  match t.shape with
  | [a, b] =>
    ⟨[a, b - 1], (List.range a).flatMap fun i =>
      (List.range (b - 1)).map fun j => t.data.getD (i * b + j) 0⟩
  | _ => ⟨[0], []⟩

/-- Which branch of `UnitWise.mvp` produced a result. -/
inductive MvpBranch where
  | bn
  | concat
deriving DecidableEq, Repr

/-- `UnitWise.mvp` (symmatrix.py:636): branch selection per the Python/torch
semantics of the condition (`bnBranchCond`), then the per-branch
computation; `torch.stack` in the first branch requires its operands to
share a shape. -/
def UnitWise.mvp (u : UnitWise) (w bias : Tensor) (use_inv : Bool) :
    Except PyErr (MvpBranch × Tensor × Tensor) :=
  match (if use_inv then u.inv else u.data) with
  | none => Except.error PyErr.typeErr
  | some mat =>
    match bnBranchCond w.shape bias with
    | Except.error e => Except.error e
    | Except.ok true =>
      if w.shape = bias.shape then
        match matmul3 mat (unsqueeze2 (stack2dim1 w bias)) with
        | Except.error e => Except.error e
        | Except.ok wb =>
          Except.ok (MvpBranch.bn, column2 (squeezeLast wb) 0,
            column2 (squeezeLast wb) 1)
      else Except.error PyErr.runtime
    | Except.ok false =>
      match hstackWB w bias with
      | Except.error e => Except.error e
      | Except.ok v0 =>
        match matmul3 mat (unsqueeze2 v0) with
        | Except.error e => Except.error e
        | Except.ok wb =>
          Except.ok (MvpBranch.concat, dropLastCol (squeezeLast wb),
            column2 (squeezeLast wb) (v0.shape.getD 1 1 - 1))

/-! ### Secant update kernels on flat tensors (kbfgs.py:179–213) -/

/-- `torch.dot` of two same-length 1-D tensors: a 0-dimensional tensor. -/
def tdot (a b : Tensor) : Except PyErr Tensor :=
  match a.shape, b.shape with
  | [n], [m] =>
    if n = m then Except.ok ⟨[], [(List.zipWith (· * ·) a.data b.data).sum]⟩
    else Except.error PyErr.runtime
  | _, _ => Except.error PyErr.runtime

/-- `torch.mv`. -/
def tmv (m v : Tensor) : Except PyErr Tensor :=
  match m.shape, v.shape with
  | [r, c], [n] =>
    if c = n then
      Except.ok ⟨[r], (List.range r).map fun i =>
        ((List.range c).map fun j =>
          m.data.getD (i * c + j) 0 * v.data.getD j 0).sum⟩
    else Except.error PyErr.runtime
  | _, _ => Except.error PyErr.runtime

/-- `torch.outer`. -/
def touter (a b : Tensor) : Except PyErr Tensor :=
  match a.shape, b.shape with
  | [n], [m] =>
    Except.ok ⟨[n, m], (List.range n).flatMap fun i =>
      (List.range m).map fun j => a.data.getD i 0 * b.data.getD j 0⟩
  | _, _ => Except.error PyErr.runtime

/-- `.T` of a 2-D tensor (identity on other ranks, which are not reached). -/
def ttranspose (t : Tensor) : Tensor :=
  match t.shape with
  | [r, c] => ⟨[c, r], (List.range c).flatMap fun i =>
      (List.range r).map fun j => t.data.getD (j * c + i) 0⟩
  | _ => t

/-- `torch.all(a == b)` for same-shaped operands. -/
def tAllEq (a b : Tensor) : Bool := a.shape == b.shape && a.data == b.data

/-- `torch.matmul`/`@`: both operands must be at least 1-dimensional;
beyond that only the 2-D×2-D case could be reached here. -/
def tensorMatmul (a b : Tensor) : Except PyErr Tensor :=
  if a.shape.length = 0 ∨ b.shape.length = 0 then Except.error PyErr.matmulDim
  else
    match a.shape, b.shape with
    | [r, c], [c2, p] =>
      if c = c2 then
        Except.ok ⟨[r, p], (List.range r).flatMap fun i =>
          (List.range p).map fun q =>
            ((List.range c).map fun j =>
              a.data.getD (i * c + j) 0 * b.data.getD (j * p + q) 0).sum⟩
      else Except.error PyErr.runtime
    | _, _ => Except.error PyErr.runtime

/-- Elementwise division of a tensor by a 0-dim scalar tensor. -/
def tdivScalar (t s0 : Tensor) : Tensor :=
  ⟨t.shape, t.data.map (· / s0.data.getD 0 0)⟩

/-- `t ** 2` on a 0-dim tensor. -/
def tsquare (t : Tensor) : Tensor := ⟨t.shape, t.data.map fun x => x ^ 2⟩

/-- Elementwise subtraction for same-shaped operands. -/
def tsub (a b : Tensor) : Tensor := ⟨a.shape, List.zipWith (· - ·) a.data b.data⟩

/-- `bfgs_inv_update_` (kbfgs.py:193): the Sherman–Morrison rank-2 BFGS
update of `H`.  The first update term is written
`(sty + ytHy) @ sst / (sty ** 2)` in the source: `@` is `torch.matmul`,
whose left operand `sty + ytHy` is 0-dimensional. -/
def bfgs_inv_update (H s y : Tensor) : Except PyErr Tensor :=
  if H.shape.length = 2 ∧ tAllEq (ttranspose H) H then
    match H.shape with
    | [d1, d2] =>
      if d1 = d2 ∧ s.shape = [d1] ∧ y.shape = [d1] then
        match tdot s y with
        | Except.error e => Except.error e
        | Except.ok sty =>
          match tmv H y with
          | Except.error e => Except.error e
          | Except.ok Hy =>
            match touter Hy s with
            | Except.error e => Except.error e
            | Except.ok Hyst =>
              match tdot y Hy with
              | Except.error e => Except.error e
              | Except.ok ytHy =>
                match touter s s with
                | Except.error e => Except.error e
                | Except.ok sst =>
                  match tensorMatmul (Tensor.add sty ytHy) sst with
                  | Except.error e => Except.error e
                  | Except.ok num =>
                    Except.ok (tsub
                      (Tensor.add H (tdivScalar num (tsquare sty)))
                      (tdivScalar (Tensor.add Hyst (ttranspose Hyst)) sty))
      else Except.error PyErr.assertion
    | _ => Except.error PyErr.assertion
  else Except.error PyErr.assertion

/-! ### Numeric embedding over Mathlib matrices

For the linear-algebra claims the tensors are `Matrix (Fin n) (Fin n) ℚ`
and the vectors `Fin n → ℚ`. -/

/-- `powell_lm_damping_` (kbfgs.py:179): the Powell / Levenberg–Marquardt
damped correction of the secant pair, returned as the updated `(s, y)`; the
leading `assert`s on `mu1`, `mu2` are the `none` case. -/
def powell_lm_damping {n : ℕ} (H : Matrix (Fin n) (Fin n) ℚ) (s y : Fin n → ℚ)
    (mu1 mu2 : ℚ) : Option ((Fin n → ℚ) × (Fin n → ℚ)) :=
  if 0 < mu1 ∧ mu1 < 1 ∧ 0 < mu2 then
    let Hy := H.mulVec y
    let ytHy := Matrix.dotProduct y Hy
    let sty := Matrix.dotProduct s y
    let theta := if sty < mu1 * ytHy then (1 - mu1) * ytHy / (ytHy - sty) else 1
    let s1 := theta • s - (1 - theta) • Hy
    some (s1, y + mu2 • s1)
  else none

/-- Modelled from the spec: `add_value_to_diagonal` (`asdfghjkl/utils.py`,
which is not under `src/`): add a scalar to every diagonal entry. -/
def add_value_to_diagonal {n : ℕ} (M : Matrix (Fin n) (Fin n) ℚ) (c : ℚ) :
    Matrix (Fin n) (Fin n) ℚ :=
  M + c • (1 : Matrix (Fin n) (Fin n) ℚ)

/-- Modelled from the spec: `cholesky_inv` (`asdfghjkl/utils.py`, which is
not under `src/`): the inverse of a symmetric positive-definite matrix,
computed there by Cholesky factorization; over a field this is
`det⁻¹ • adjugate`.  The factorization failure on a non-positive-definite
input is not modelled — every claim instance inverts a strictly diagonally
dominant matrix. -/
def cholesky_inv {n : ℕ} (M : Matrix (Fin n) (Fin n) ℚ) :
    Matrix (Fin n) (Fin n) ℚ :=
  M.det⁻¹ • M.adjugate

/-- The `Kron` factors and cached inverses at the linear-algebra level. -/
structure KronQ (da db : ℕ) where
  A : Matrix (Fin da) (Fin da) ℚ
  B : Matrix (Fin db) (Fin db) ℚ
  A_inv : Option (Matrix (Fin da) (Fin da) ℚ)
  B_inv : Option (Matrix (Fin db) (Fin db) ℚ)

/-- `Kron.update_inv` (symmatrix.py:401): π-split damped inversion of the
two factors.  The square roots (`damping**0.5` and `torch.sqrt`) are
external numerics passed as a function argument; the claims fix its values
on the rationals actually reached. -/
def KronQ.update_inv {da db : ℕ} (sqrt : ℚ → ℚ) (k : KronQ da db)
    (damping eps : ℚ) : KronQ da db :=
  let A_eig_mean := k.A.trace / (da : ℚ)
  let B_eig_mean := k.B.trace / (db : ℚ)
  let pi := sqrt (A_eig_mean / B_eig_mean)
  let r := sqrt damping
  { k with
    A_inv := some (cholesky_inv (add_value_to_diagonal k.A (max (r * pi) eps))),
    B_inv := some (cholesky_inv (add_value_to_diagonal k.B (max (r / pi) eps))) }

/-- `Kron.mvp` (symmatrix.py:413), `vec_bias=None` path:
`mat_B.mm(vec2d).mm(mat_A)` on the `(B_dim, A_dim)`-reshaped weight (the
reshape is the identity on an already 2-D weight); with `use_inv` the cached
inverses are used (a missing `None` inverse raises in `mm`). -/
def KronQ.mvp {da db : ℕ} (k : KronQ da db) (V : Matrix (Fin db) (Fin da) ℚ)
    (use_inv : Bool) : Option (Matrix (Fin db) (Fin da) ℚ) :=
  if use_inv then
    match k.A_inv, k.B_inv with
    | some ai, some bi => some (bi * V * ai)
    | _, _ => none
  else some (k.B * V * k.A)

/-- Column-major vectorization of a `(d_B, d_A)` weight, indexed by
`(A-index, B-index)` pairs to match the index pairs of `A ⊗ B`. -/
def vecOfWeight {da db : ℕ} (V : Matrix (Fin db) (Fin da) ℚ) :
    Fin da × Fin db → ℚ :=
  fun p => V p.2 p.1

/-- A square-root function agreeing with the real square root on the values
reached in the C2 scenario. -/
def sqrtScenario : ℚ → ℚ := fun x =>
  if x = 1 then 1 else if x = 1 / 100 then 1 / 10 else 0

/-- The C2 scenario: `A` the `4×4` identity, `B` the `3×3` identity, no
cached inverses. -/
def kronScenario : KronQ 4 3 := ⟨1, 1, none, none⟩

/-- The C2 scenario after `update_inv` with `damping = 0.01`
(default `eps = 1e-7`). -/
def kronScenarioInv : KronQ 4 3 :=
  kronScenario.update_inv sqrtScenario (1 / 100) (1 / 10000000)

/-- The all-ones `3×4` weight gradient of the C2 scenario. -/
def onesW : Matrix (Fin 3) (Fin 4) ℚ := Matrix.of fun _ _ => 1

/-- A non-symmetric `2×2` input-side factor for the C6 counterexample. -/
def Ac6 : Matrix (Fin 2) (Fin 2) ℚ := !![0, 1; 0, 0]

/-- The `1×1` identity output-side factor for the C6 counterexample. -/
def Bc6 : Matrix (Fin 1) (Fin 1) ℚ := 1

/-- The `1×2` weight for the C6 counterexample. -/
def Vc6 : Matrix (Fin 1) (Fin 2) ℚ := !![1, 0]

/-- A symmetric input-side factor for the C6 witness. -/
def Ac6w : Matrix (Fin 2) (Fin 2) ℚ := !![2, 1; 1, 3]

/-- An output-side factor for the C6 witness. -/
def Bc6w : Matrix (Fin 1) (Fin 1) ℚ := !![5]

/-- A weight for the C6 witness. -/
def Vc6w : Matrix (Fin 1) (Fin 2) ℚ := !![7, 9]

/-- A `SymMatrix` holding only the `kron` representation (C4). -/
def kronOnlySM : SymMatrix :=
  { data := none,
    kron := some ⟨some ⟨[1, 1], [2]⟩, some ⟨[1, 1], [3]⟩, none, none⟩,
    diag := none, unit := none, inv := none }

/-- Concrete fully populated `SymMatrix` instances for the C8 witness. -/
def smX : SymMatrix :=
  { data := some ⟨[2], [1, 2]⟩,
    kron := some ⟨some ⟨[1, 1], [3]⟩, some ⟨[1, 1], [4]⟩, some ⟨[1, 1], [9]⟩, none⟩,
    diag := some ⟨some ⟨[2], [5, 6]⟩, some ⟨[1], [7]⟩, none, none⟩,
    unit := some ⟨some ⟨[1, 2, 2], [1, 0, 0, 1]⟩, none⟩,
    inv := some ⟨[2, 2], [1, 0, 0, 1]⟩ }

/-- Second C8 witness instance. -/
def smY : SymMatrix :=
  { data := some ⟨[2], [10, 20]⟩,
    kron := some ⟨some ⟨[1, 1], [30]⟩, some ⟨[1, 1], [40]⟩, none, none⟩,
    diag := some ⟨some ⟨[2], [50, 60]⟩, some ⟨[1], [70]⟩, none, none⟩,
    unit := some ⟨some ⟨[1, 2, 2], [2, 0, 0, 2]⟩, none⟩,
    inv := none }

/-- Third C8 witness instance. -/
def smZ : SymMatrix :=
  { data := some ⟨[2], [100, 200]⟩,
    kron := some ⟨some ⟨[1, 1], [300]⟩, some ⟨[1, 1], [400]⟩, none, none⟩,
    diag := some ⟨some ⟨[2], [500, 600]⟩, some ⟨[1], [700]⟩, none, none⟩,
    unit := some ⟨some ⟨[1, 2, 2], [3, 0, 0, 3]⟩, none⟩,
    inv := none }

/-- A `Kron` with factor data and cached inverses (C10 witness). -/
def kronCached : Kron :=
  ⟨some ⟨[1, 1], [2]⟩, some ⟨[1, 1], [3]⟩, some ⟨[1, 1], [5]⟩, some ⟨[1, 1], [7]⟩⟩

/-- A right-hand `Kron` operand holding no (complete) factor data. -/
def kronEmptyRHS : Kron := ⟨none, some ⟨[1, 1], [4]⟩, none, none⟩

/-- A right-hand `Kron` operand holding factor data. -/
def kronFullRHS : Kron := ⟨some ⟨[1, 1], [4]⟩, some ⟨[1, 1], [6]⟩, none, none⟩

theorem trilPairs_succ (n : ℕ) :
    trilPairs (n + 1) = trilPairs n ++ (List.range (n + 1)).map fun j => (n, j) := by
  simp [trilPairs, List.range_succ]

theorem trilNumel_succ (n : ℕ) : trilNumel (n + 1) = trilNumel n + (n + 1) := by
  show (n + 1) * (n + 1 + 1) / 2 = n * (n + 1) / 2 + (n + 1)
  have h : (n + 1) * (n + 1 + 1) = n * (n + 1) + 2 * (n + 1) := by ring
  omega

theorem trilPairs_length (n : ℕ) : (trilPairs n).length = trilNumel n := by
  induction n with
  | zero => rfl
  | succ m ih => simp [trilPairs_succ, trilNumel_succ, ih]

theorem mem_trilPairs {n i j : ℕ} : (i, j) ∈ trilPairs n ↔ i < n ∧ j ≤ i := by
  constructor
  · intro h
    obtain ⟨a, ha, hm⟩ := List.mem_flatMap.1 h
    obtain ⟨b, hb, heq⟩ := List.mem_map.1 hm
    rw [Prod.mk.injEq] at heq
    obtain ⟨rfl, rfl⟩ := heq
    have hb' := List.mem_range.1 hb
    exact ⟨List.mem_range.1 ha, by omega⟩
  · intro h
    refine List.mem_flatMap.2 ⟨i, List.mem_range.2 h.1, ?_⟩
    exact List.mem_map.2 ⟨j, List.mem_range.2 (by omega), rfl⟩

theorem get_n_cols_trilNumel (n : ℕ) : get_n_cols_by_tril (trilNumel n) = n := by
  show (Nat.sqrt (8 * (n * (n + 1) / 2) + 1) - 1) / 2 = n
  obtain ⟨r, hr⟩ := Nat.even_mul_succ_self n
  have hdiv : n * (n + 1) / 2 = r := by omega
  have hsq : 8 * (n * (n + 1) / 2) + 1 = (2 * n + 1) * (2 * n + 1) := by
    rw [hdiv]
    have : n * (n + 1) = r + r := hr
    nlinarith [this]
  rw [hsq, Nat.sqrt_eq]
  omega

theorem matrix_to_tril_length (n : ℕ) (M : ℕ → ℕ → ℚ) :
    (matrix_to_tril n M).length = trilNumel n := by
  simp [matrix_to_tril, trilPairs_length]

theorem trilNumel_ne_two (m : ℕ) : trilNumel m ≠ 2 := by
  match m with
  | 0 => decide
  | 1 => decide
  | 2 => decide
  | (k + 3) =>
    have h6 : 2 * 3 ≤ (k + 3) * (k + 3 + 1) :=
      Nat.mul_le_mul (by omega) (by omega)
    have h3 : 3 ≤ trilNumel (k + 3) := by
      show 3 ≤ (k + 3) * (k + 3 + 1) / 2
      omega
    omega

theorem trilPairs_append {m n : ℕ} (h : m ≤ n) :
    ∃ t, trilPairs n = trilPairs m ++ t := by
  induction n with
  | zero =>
    have hm : m = 0 := Nat.le_zero.1 h
    exact ⟨[], by rw [hm]; rfl⟩
  | succ k ih =>
    rcases Nat.lt_or_ge m (k + 1) with hc | hc
    · obtain ⟨t, ht⟩ := ih (by omega)
      exact ⟨t ++ (List.range (k + 1)).map fun j => (k, j),
        by rw [trilPairs_succ, ht, List.append_assoc]⟩
    · have hm : m = k + 1 := by omega
      exact ⟨[], by rw [hm, List.append_nil]⟩

theorem trilNumel_le {m n : ℕ} (h : m ≤ n) : trilNumel m ≤ trilNumel n := by
  obtain ⟨t, ht⟩ := trilPairs_append h
  have h1 := trilPairs_length m
  have h2 := trilPairs_length n
  rw [ht, List.length_append, h1] at h2
  omega

theorem trilNumel_add_lt {n i j : ℕ} (hi : i < n) (hj : j ≤ i) :
    trilNumel i + j < (trilPairs n).length := by
  rw [trilPairs_length]
  have h1 : trilNumel (i + 1) ≤ trilNumel n := trilNumel_le hi
  have h2 := trilNumel_succ i
  omega

/-- Pair `(i, j)` of the lower triangle sits at row-major position
`i*(i+1)/2 + j` in `torch.tril_indices(n, n)`. -/
theorem trilPairs_getD {n i j : ℕ} (hi : i < n) (hj : j ≤ i) :
    (trilPairs n).getD (trilNumel i + j) (0, 0) = (i, j) := by
  obtain ⟨t, ht⟩ := trilPairs_append (show i + 1 ≤ n from hi)
  rw [ht, List.getD_append _ _ _ _ (by rw [trilPairs_length, trilNumel_succ]; omega),
    trilPairs_succ,
    List.getD_append_right _ _ _ _ (by rw [trilPairs_length]; omega)]
  rw [trilPairs_length]
  have hsub : trilNumel i + j - trilNumel i = j := by omega
  rw [hsub, List.getD_eq_getElem _ _ (by simp; omega), List.getElem_map]
  simp

theorem matrix_to_tril_getD (n : ℕ) (M : ℕ → ℕ → ℚ) {i j : ℕ}
    (hi : i < n) (hj : j ≤ i) :
    (matrix_to_tril n M).getD (trilNumel i + j) 0 = M i j := by
  have hlt : trilNumel i + j < (trilPairs n).length := trilNumel_add_lt hi hj
  rw [matrix_to_tril, List.getD_eq_getElem _ _ (by simpa using hlt), List.getElem_map]
  have hD := trilPairs_getD hi hj
  rw [List.getD_eq_getElem _ _ hlt] at hD
  rw [hD]

theorem trilUnpackEntry_spec (n : ℕ) (M : ℕ → ℕ → ℚ) (i j : ℕ) :
    trilUnpackEntry (matrix_to_tril n M) n i j =
      if i < n ∧ j ≤ i then M i j else 0 := by
  unfold trilUnpackEntry
  by_cases h : (i, j) ∈ trilPairs n
  · have hc := mem_trilPairs.1 h
    rw [if_pos h, if_pos hc, matrix_to_tril_getD n M hc.1 hc.2]
  · rw [if_neg h, if_neg (fun hc => h (mem_trilPairs.2 hc))]

/-- Claim C3: a 1-D packed vector whose length is not of the form
`n*(n+1)/2` makes the unpacking (`tril_to_matrix`, which recovers the size
with `get_n_cols_by_tril`) fail with a shape error; and when the length does
equal `n*(n+1)/2`, the size recovered by the
`floor(sqrt(2*len + 0.25) - 0.5)` formula is exactly `n`. -/
theorem C3_unpack_length_handling :
    (∀ tril : List ℚ, (∀ m : ℕ, trilNumel m ≠ tril.length) →
      tril_to_matrix tril = Except.error PyErr.shape) ∧
    (∀ n : ℕ, get_n_cols_by_tril (trilNumel n) = n) := by
  constructor
  · intro tril h
    simp only [tril_to_matrix]
    rw [if_neg]
    rw [trilPairs_length]
    exact h _
  · exact get_n_cols_trilNumel

/-- Witness for C3: length 2 is not a triangular number and is rejected;
packed length `trilNumel 5 = 15` recovers `n = 5`. -/
theorem C3_unpack_length_handling_witness :
    tril_to_matrix [(1 : ℚ), 2] = Except.error PyErr.shape ∧
    get_n_cols_by_tril (trilNumel 5) = 5 :=
  ⟨C3_unpack_length_handling.1 [(1 : ℚ), 2] (fun m => trilNumel_ne_two m),
   C3_unpack_length_handling.2 5⟩

/-- Claim C7: for a symmetric `n×n` matrix `M`, unpacking the packed lower
triangle reconstructs `M` exactly:
`tril_to_matrix (matrix_to_tril M)` succeeds with size `n` and reproduces
every entry of `M`. -/
theorem C7_tril_round_trip (n : ℕ) (M : ℕ → ℕ → ℚ)
    (hsym : ∀ i j, i < n → j < n → M i j = M j i) :
    ∃ M', tril_to_matrix (matrix_to_tril n M) = Except.ok (n, M') ∧
      ∀ i j, i < n → j < n → M' i j = M i j := by
  have hlen : (matrix_to_tril n M).length = trilNumel n := matrix_to_tril_length n M
  have hn : get_n_cols_by_tril (matrix_to_tril n M).length = n := by
    rw [hlen, get_n_cols_trilNumel]
  simp only [tril_to_matrix, hn]
  rw [if_pos (by rw [trilPairs_length, hlen])]
  refine ⟨_, rfl, ?_⟩
  intro i j hi hj
  simp only [trilUnpackEntry_spec]
  rcases lt_trichotomy i j with hij | rfl | hij
  · rw [if_neg (by omega : ¬(i < n ∧ j ≤ i)), if_pos (⟨hj, by omega⟩ : j < n ∧ i ≤ j),
      if_neg (by omega : ¬i = j), hsym j i hj hi]
    ring
  · rw [if_pos (⟨hi, le_refl i⟩ : i < n ∧ i ≤ i), if_pos rfl]
    ring
  · rw [if_pos (⟨hi, by omega⟩ : i < n ∧ j ≤ i), if_neg (by omega : ¬(j < n ∧ i ≤ j)),
      if_neg (by omega : ¬i = j)]
    ring

/-- A concrete symmetric matrix used by the C7 witness. -/
def symWitnessMat : ℕ → ℕ → ℚ := fun i j => if i = j then 2 else 1

/-- Witness for C7 at a concrete symmetric `2×2` matrix. -/
theorem C7_tril_round_trip_witness :
    ∃ M', tril_to_matrix (matrix_to_tril 2 symWitnessMat) = Except.ok (2, M') ∧
      ∀ i j, i < 2 → j < 2 → M' i j = symWitnessMat i j :=
  C7_tril_round_trip 2 symWitnessMat (fun i j _ _ => by
    unfold symWitnessMat
    by_cases h : i = j
    · rw [if_pos h, if_pos h.symm]
    · rw [if_neg h, if_neg (fun hc => h hc.symm)])

/-- Claim C10: when the right-hand operand of `Kron.__add__` holds no factor
data, the receiver is returned as-is — its cached `A_inv`/`B_inv` included;
in every other case the result is a freshly constructed `Kron` whose cached
inverses are `None`. -/
theorem C10_kron_add_cache (s o : Kron) :
    (o.hasData = false → Kron.add s o = s) ∧
    (o.hasData = true →
      (Kron.add s o).A_inv = none ∧ (Kron.add s o).B_inv = none) := by
  constructor
  · intro h
    simp [Kron.add, h]
  · intro h
    by_cases hs : s.hasData
    · simp [Kron.add, h, hs]
    · simp [Kron.add, h, hs]

/-- Witness for C10: a receiver with cached inverses is preserved verbatim
when the right operand lacks factor data; combination with a populated
operand clears the caches. -/
theorem C10_kron_add_cache_witness :
    Kron.add kronCached kronEmptyRHS = kronCached ∧
    (Kron.add kronCached kronFullRHS).A_inv = none ∧
    (Kron.add kronCached kronFullRHS).B_inv = none :=
  ⟨(C10_kron_add_cache kronCached kronEmptyRHS).1 (by decide),
   ((C10_kron_add_cache kronCached kronFullRHS).2 (by decide)).1,
   ((C10_kron_add_cache kronCached kronFullRHS).2 (by decide)).2⟩

/-- Claim C4 (corrected): the `SymMatrix`-level spectral queries operate on
the full (`data`) representation only — `eigenvalues` succeeds exactly when
`data` is populated, and with `data` absent all three queries fail with the
`has_data` assertion even when another sub-representation (such as `kron`)
is populated. -/
theorem C4_spectral_queries_amended (symeig : Tensor → Tensor) (s : SymMatrix) :
    ((s.eigenvalues symeig).isOk = s.data.isSome) ∧
    (s.data = none →
      s.eigenvalues symeig = Except.error PyErr.assertion ∧
      s.top_eigenvalue symeig = Except.error PyErr.assertion ∧
      s.trace = Except.error PyErr.assertion) := by
  constructor
  · cases h : s.data <;>
      simp [SymMatrix.eigenvalues, h, Except.isOk, Except.toBool]
  · intro h
    exact ⟨by simp [SymMatrix.eigenvalues, h],
      by simp [SymMatrix.top_eigenvalue, h],
      by simp [SymMatrix.trace, h]⟩

/-- Counterexample for C4 as stated: a `SymMatrix` holding only the `kron`
representation makes `eigenvalues`/`top_eigenvalue`/`trace` fail with the
`has_data` assertion — they do not operate on the populated `kron`. -/
theorem C4_spectral_queries_counterexample :
    kronOnlySM.kron.isSome = true ∧
    SymMatrix.eigenvalues (fun t => t) kronOnlySM = Except.error PyErr.assertion ∧
    SymMatrix.top_eigenvalue (fun t => t) kronOnlySM = Except.error PyErr.assertion ∧
    SymMatrix.trace kronOnlySM = Except.error PyErr.assertion :=
  ⟨rfl, rfl, rfl, rfl⟩

/-- Witness for the amended C4 at the kron-only instance. -/
theorem C4_spectral_queries_amended_witness :
    ((SymMatrix.eigenvalues (fun t => t) kronOnlySM).isOk = kronOnlySM.data.isSome) ∧
    (SymMatrix.eigenvalues (fun t => t) kronOnlySM = Except.error PyErr.assertion ∧
     SymMatrix.top_eigenvalue (fun t => t) kronOnlySM = Except.error PyErr.assertion ∧
     SymMatrix.trace kronOnlySM = Except.error PyErr.assertion) :=
  ⟨(C4_spectral_queries_amended (fun t => t) kronOnlySM).1,
   (C4_spectral_queries_amended (fun t => t) kronOnlySM).2 rfl⟩

theorem zipWith_add_comm (xs ys : List ℚ) :
    List.zipWith (· + ·) xs ys = List.zipWith (· + ·) ys xs :=
  List.zipWith_comm_of_comm _ (fun a b => add_comm a b) xs ys

theorem zipWith_add_assoc (as bs cs : List ℚ) :
    List.zipWith (· + ·) (List.zipWith (· + ·) as bs) cs =
      List.zipWith (· + ·) as (List.zipWith (· + ·) bs cs) := by
  induction as generalizing bs cs with
  | nil => simp
  | cons a as ih =>
    cases bs with
    | nil => simp
    | cons b bs =>
      cases cs with
      | nil => simp
      | cons c cs => simp [ih, add_assoc]

theorem zipWith_add_self (l : List ℚ) :
    List.zipWith (· + ·) l l = l.map (· * 2) := by
  induction l with
  | nil => rfl
  | cons x xs ih =>
    rw [List.zipWith_cons_cons, List.map_cons, ih]
    congr 1
    ring

theorem Tensor.add_comm2 {a b : Tensor} (h : a.shape = b.shape) :
    Tensor.add a b = Tensor.add b a := by
  unfold Tensor.add
  rw [h, zipWith_add_comm]

theorem Tensor.add_assoc2 (a b c : Tensor) :
    Tensor.add (Tensor.add a b) c = Tensor.add a (Tensor.add b c) := by
  simp [Tensor.add, zipWith_add_assoc]

theorem Tensor.add_self (a : Tensor) : Tensor.add a a = Tensor.smul a 2 := by
  unfold Tensor.add Tensor.smul
  rw [zipWith_add_self]

theorem combineOpt_tensor_comm {x y : Option Tensor}
    (h : optShapeMatch x y = true) :
    combineOpt Tensor.add x y = combineOpt Tensor.add y x := by
  match x, y with
  | none, none => rfl
  | none, some b => exact absurd h (by simp [optShapeMatch])
  | some a, none => exact absurd h (by simp [optShapeMatch])
  | some a, some b =>
    simp only [optShapeMatch, beq_iff_eq] at h
    simp [combineOpt, Tensor.add_comm2 h]

theorem combineOpt_assoc {α : Type} (f : α → α → α)
    (hf : ∀ a b c, f (f a b) c = f a (f b c)) (x y z : Option α) :
    combineOpt f (combineOpt f x y) z = combineOpt f x (combineOpt f y z) := by
  match x, y, z with
  | none, none, none => rfl
  | none, none, some c => rfl
  | none, some b, none => rfl
  | some a, none, none => rfl
  | none, some b, some c => rfl
  | some a, none, some c => rfl
  | some a, some b, none => rfl
  | some a, some b, some c => simp [combineOpt, hf]

theorem kronAdd_values_comm {s o : Kron} (hs : s.hasData = true)
    (ho : o.hasData = true) (hA : optShapeMatch s.A o.A = true)
    (hB : optShapeMatch s.B o.B = true) :
    (Kron.add s o).A = (Kron.add o s).A ∧ (Kron.add s o).B = (Kron.add o s).B := by
  rcases s with ⟨sA, sB, sAi, sBi⟩
  rcases o with ⟨oA, oB, oAi, oBi⟩
  simp only [Kron.hasData, Bool.and_eq_true, Option.isSome_iff_exists] at hs ho
  obtain ⟨⟨a, rfl⟩, ⟨b, rfl⟩⟩ := hs
  obtain ⟨⟨a2, rfl⟩, ⟨b2, rfl⟩⟩ := ho
  simp only [optShapeMatch, beq_iff_eq] at hA hB
  simp [Kron.add, Kron.hasData, opt2, Tensor.add_comm2 hA, Tensor.add_comm2 hB]

theorem kron_component_comm {x y : Option Kron} (h : kronMatchB x y = true) :
    (combineOpt Kron.add x y).map (fun k => (k.A, k.B)) =
      (combineOpt Kron.add y x).map (fun k => (k.A, k.B)) := by
  match x, y with
  | none, none => rfl
  | none, some k => exact absurd h (by simp [kronMatchB])
  | some k, none => exact absurd h (by simp [kronMatchB])
  | some k, some k2 =>
    simp only [kronMatchB, Bool.and_eq_true] at h
    obtain ⟨⟨⟨h1, h2⟩, h3⟩, h4⟩ := h
    obtain ⟨eA, eB⟩ := kronAdd_values_comm h1 h2 h3 h4
    simp [combineOpt, eA, eB]

theorem kron_component_assoc {x y z : Option Kron}
    (hxy : kronMatchB x y = true) (hyz : kronMatchB y z = true) :
    combineOpt Kron.add (combineOpt Kron.add x y) z =
      combineOpt Kron.add x (combineOpt Kron.add y z) := by
  match x, y, z with
  | none, none, none => rfl
  | none, none, some _ => exact absurd hyz (by simp [kronMatchB])
  | none, some _, none => exact absurd hxy (by simp [kronMatchB])
  | some _, none, none => exact absurd hxy (by simp [kronMatchB])
  | none, some _, some _ => exact absurd hxy (by simp [kronMatchB])
  | some _, none, some _ => exact absurd hxy (by simp [kronMatchB])
  | some _, some _, none => exact absurd hyz (by simp [kronMatchB])
  | some ka, some kb, some kc =>
    simp only [kronMatchB, Bool.and_eq_true] at hxy hyz
    obtain ⟨⟨⟨ha, hb⟩, _⟩, _⟩ := hxy
    obtain ⟨⟨⟨_, hc⟩, _⟩, _⟩ := hyz
    rcases ka with ⟨kaA, kaB, kaAi, kaBi⟩
    rcases kb with ⟨kbA, kbB, kbAi, kbBi⟩
    rcases kc with ⟨kcA, kcB, kcAi, kcBi⟩
    simp only [Kron.hasData, Bool.and_eq_true, Option.isSome_iff_exists] at ha hb hc
    obtain ⟨⟨a1, rfl⟩, ⟨b1, rfl⟩⟩ := ha
    obtain ⟨⟨a2, rfl⟩, ⟨b2, rfl⟩⟩ := hb
    obtain ⟨⟨a3, rfl⟩, ⟨b3, rfl⟩⟩ := hc
    simp [combineOpt, Kron.add, Kron.hasData, opt2, Tensor.add_assoc2]

theorem Diag.add_comm3 {a b : Diag}
    (hw : optShapeMatch a.weight b.weight = true)
    (hb : optShapeMatch a.bias b.bias = true) :
    Diag.add a b = Diag.add b a := by
  simp [Diag.add, combineOpt_tensor_comm hw, combineOpt_tensor_comm hb]

theorem Diag.add_assoc3 (a b c : Diag) :
    Diag.add (Diag.add a b) c = Diag.add a (Diag.add b c) := by
  simp [Diag.add, combineOpt_assoc Tensor.add Tensor.add_assoc2]

theorem diag_component_comm {x y : Option Diag} (h : diagMatchB x y = true) :
    combineOpt Diag.add x y = combineOpt Diag.add y x := by
  match x, y with
  | none, none => rfl
  | none, some d => exact absurd h (by simp [diagMatchB])
  | some d, none => exact absurd h (by simp [diagMatchB])
  | some d, some d2 =>
    simp only [diagMatchB, Bool.and_eq_true] at h
    simp [combineOpt, Diag.add_comm3 h.1 h.2]

theorem unitAdd_values_comm {s o : UnitWise}
    (h : optShapeMatch s.data o.data = true) :
    (UnitWise.add s o).data = (UnitWise.add o s).data := by
  rcases s with ⟨sd, si⟩
  rcases o with ⟨od, oi⟩
  rcases sd with _ | a <;> rcases od with _ | b
  · rfl
  · exact absurd h (by simp [optShapeMatch])
  · exact absurd h (by simp [optShapeMatch])
  · simp only [optShapeMatch, beq_iff_eq] at h
    simp [UnitWise.add, UnitWise.hasData, opt2, Tensor.add_comm2 h]

theorem unit_component_comm {x y : Option UnitWise} (h : unitMatchB x y = true) :
    (combineOpt UnitWise.add x y).map (fun u => u.data) =
      (combineOpt UnitWise.add y x).map (fun u => u.data) := by
  match x, y with
  | none, none => rfl
  | none, some u => exact absurd h (by simp [unitMatchB])
  | some u, none => exact absurd h (by simp [unitMatchB])
  | some u, some u2 =>
    simp only [unitMatchB] at h
    have hd := unitAdd_values_comm (s := u) (o := u2) h
    simp [combineOpt, hd]

theorem unit_component_assoc {x y z : Option UnitWise}
    (hxy : unitMatchB x y = true) (hyz : unitMatchB y z = true) :
    combineOpt UnitWise.add (combineOpt UnitWise.add x y) z =
      combineOpt UnitWise.add x (combineOpt UnitWise.add y z) := by
  match x, y, z with
  | none, none, none => rfl
  | none, none, some _ => exact absurd hyz (by simp [unitMatchB])
  | none, some _, none => exact absurd hxy (by simp [unitMatchB])
  | some _, none, none => exact absurd hxy (by simp [unitMatchB])
  | none, some _, some _ => exact absurd hxy (by simp [unitMatchB])
  | some _, none, some _ => exact absurd hxy (by simp [unitMatchB])
  | some _, some _, none => exact absurd hyz (by simp [unitMatchB])
  | some u1, some u2, some u3 =>
    simp only [unitMatchB] at hxy hyz
    rcases u1 with ⟨d1, i1⟩
    rcases u2 with ⟨d2, i2⟩
    rcases u3 with ⟨d3, i3⟩
    rcases d1 with _ | t1 <;> rcases d2 with _ | t2 <;> rcases d3 with _ | t3 <;>
      first
        | (simp [combineOpt, UnitWise.add, UnitWise.hasData, opt2,
            Tensor.add_assoc2]; done)
        | (simp [optShapeMatch] at hxy; done)
        | (simp [optShapeMatch] at hyz; done)

theorem combineOpt_tensor_self (x : Option Tensor) :
    combineOpt Tensor.add x x = x.map (Tensor.smul · 2) := by
  cases x with
  | none => rfl
  | some a => simp [combineOpt, Tensor.add_self]

theorem diagIadd_self (d : Diag) : Diag.iadd d d = Diag.mul d 2 := by
  rcases d with ⟨w, b, wi, bi⟩
  simp [Diag.iadd, Diag.mul, combineOpt_tensor_self]

theorem unitIadd_self (u : UnitWise) : UnitWise.iadd u u = UnitWise.mul u 2 := by
  rcases u with ⟨d, i⟩
  rcases d with _ | t
  · simp [UnitWise.iadd, UnitWise.hasData, UnitWise.mul]
  · simp [UnitWise.iadd, UnitWise.hasData, UnitWise.mul, opt2, Tensor.add_self]

theorem combineOpt_diag_self (x : Option Diag) :
    combineOpt Diag.iadd x x = x.map (Diag.mul · 2) := by
  cases x with
  | none => rfl
  | some d => simp [combineOpt, diagIadd_self]

theorem combineOpt_unit_self (x : Option UnitWise) :
    combineOpt UnitWise.iadd x x = x.map (UnitWise.mul · 2) := by
  cases x with
  | none => rfl
  | some u => simp [combineOpt, unitIadd_self]

theorem kronIadd_self {k : Kron} (h : k.hasData = true) :
    ∃ k2, Kron.mul k 2 = some k2 ∧ Kron.iadd k k = k2 := by
  rcases k with ⟨kA, kB, iA, iB⟩
  simp only [Kron.hasData, Bool.and_eq_true, Option.isSome_iff_exists] at h
  obtain ⟨⟨a, rfl⟩, ⟨b, rfl⟩⟩ := h
  exact ⟨_, rfl, by simp [Kron.iadd, Kron.hasData, opt2, Tensor.add_self, Kron.mul]⟩

/-- Claim C8: on `SymMatrix` instances with matching populated
sub-representations, value-producing combination (`__add__`) is commutative
and associative on the stored values, and in-place accumulation of a matrix
with itself (`X += X`) produces the same stored values as scaling by 2
(`mul_(2)`), representation by representation. -/
theorem C8_combine_algebra :
    (∀ s o : SymMatrix, s.matchesRep o = true →
      (s.add o).stored = (o.add s).stored) ∧
    (∀ a b c : SymMatrix, a.matchesRep b = true → b.matchesRep c = true →
      ((a.add b).add c).stored = (a.add (b.add c)).stored) ∧
    (∀ x : SymMatrix, x.kronPopulated = true →
      ∃ y, x.mul 2 = some y ∧ (x.iadd x).stored = y.stored) := by
  refine ⟨?_, ?_, ?_⟩
  · intro s o h
    simp only [SymMatrix.matchesRep, Bool.and_eq_true] at h
    obtain ⟨⟨⟨hd, hk⟩, hdg⟩, hu⟩ := h
    simp only [SymMatrix.stored, SymMatrix.add]
    rw [combineOpt_tensor_comm hd, kron_component_comm hk,
      diag_component_comm hdg, unit_component_comm hu]
  · intro a b c hab hbc
    simp only [SymMatrix.matchesRep, Bool.and_eq_true] at hab hbc
    obtain ⟨⟨⟨_, hk1⟩, _⟩, hu1⟩ := hab
    obtain ⟨⟨⟨_, hk2⟩, _⟩, hu2⟩ := hbc
    simp only [SymMatrix.stored, SymMatrix.add]
    rw [combineOpt_assoc Tensor.add Tensor.add_assoc2,
      kron_component_assoc hk1 hk2,
      combineOpt_assoc Diag.add Diag.add_assoc3,
      unit_component_assoc hu1 hu2]
  · intro x hx
    rcases x with ⟨xd, xk, xdg, xu, xi⟩
    simp only [SymMatrix.kronPopulated] at hx
    rcases xk with _ | k
    · refine ⟨_, rfl, ?_⟩
      simp only [SymMatrix.iadd, SymMatrix.stored]
      rw [combineOpt_tensor_self, combineOpt_diag_self, combineOpt_unit_self]
      rfl
    · obtain ⟨k2, hmul, hik⟩ := kronIadd_self hx
      refine ⟨{ data := xd.map (Tensor.smul · 2), kron := some k2,
                diag := xdg.map (Diag.mul · 2), unit := xu.map (UnitWise.mul · 2),
                inv := xi }, ?_, ?_⟩
      · simp [SymMatrix.mul, hmul]
      · simp only [SymMatrix.iadd, SymMatrix.stored]
        rw [combineOpt_tensor_self, combineOpt_diag_self, combineOpt_unit_self]
        simp [combineOpt, hik]

/-- Witness for C8 at three concrete fully populated instances. -/
theorem C8_combine_algebra_witness :
    ((smX.add smY).stored = (smY.add smX).stored) ∧
    (((smX.add smY).add smZ).stored = (smX.add (smY.add smZ)).stored) ∧
    (∃ y, smX.mul 2 = some y ∧ (smX.iadd smX).stored = y.stored) :=
  ⟨C8_combine_algebra.1 smX smY (by decide),
   C8_combine_algebra.2.1 smX smY smZ (by decide) (by decide),
   C8_combine_algebra.2.2 smX (by decide)⟩

theorem bcastRev_nil_right (xs : List ℕ) : bcastRev xs [] = some xs := by
  cases xs <;> rfl

theorem bcastRev_single {brev : List ℕ} {k : ℕ} {res : List ℕ}
    (h : bcastRev brev [k] = some res) (hp : res.prod = 1) :
    k = 1 ∧ brev.prod = 1 := by
  match brev with
  | [] =>
    simp only [bcastRev, Option.some.injEq] at h
    subst h
    simpa using hp
  | x :: xs =>
    rw [show bcastRev (x :: xs) [k] =
        (match bcastRev xs [] with
         | none => none
         | some rest =>
           if x = k then some (x :: rest)
           else if x = 1 then some (k :: rest)
           else if k = 1 then some (x :: rest)
           else none) from rfl, bcastRev_nil_right] at h
    split_ifs at h with h1 h2 h3
    · obtain rfl := Option.some.inj h
      simp only [List.prod_cons] at hp
      obtain ⟨hx1, hxs⟩ := mul_eq_one.1 hp
      exact ⟨by omega, by simp [List.prod_cons, hx1, hxs]⟩
    · obtain rfl := Option.some.inj h
      simp only [List.prod_cons] at hp
      obtain ⟨hk1, hxs⟩ := mul_eq_one.1 hp
      exact ⟨hk1, by simp [List.prod_cons, h2, hxs]⟩
    · obtain rfl := Option.some.inj h
      simp only [List.prod_cons] at hp
      obtain ⟨hx1, hxs⟩ := mul_eq_one.1 hp
      exact ⟨h3, by simp [List.prod_cons, hx1, hxs]⟩

theorem shapeEqBiasCond_ok {ws : List ℕ} {bias : Tensor} {c : Bool}
    (h : shapeEqBiasCond ws bias = Except.ok c) :
    ws.length = 1 ∧ bias.shape.prod = 1 := by
  unfold shapeEqBiasCond at h
  cases hb : broadcastShapes bias.shape [ws.length] with
  | none => rw [hb] at h; simp at h
  | some res =>
    rw [hb] at h
    by_cases hp : res.prod = 1
    · clear h
      simp only [broadcastShapes, List.reverse_singleton] at hb
      cases hbr : bcastRev bias.shape.reverse [ws.length] with
      | none => rw [hbr] at hb; simp at hb
      | some res0 =>
        rw [hbr] at hb
        simp only [Option.map_some', Option.some.injEq] at hb
        subst hb
        rw [List.prod_reverse] at hp
        obtain ⟨hk, hbp⟩ := bcastRev_single hbr hp
        rw [List.prod_reverse] at hbp
        exact ⟨hk, hbp⟩
    · simp [hp] at h

theorem bnBranchCond_true {ws : List ℕ} {bias : Tensor}
    (h : bnBranchCond ws bias = Except.ok true) :
    ws = [2] ∧ bias.shape.prod = 1 := by
  unfold bnBranchCond at h
  cases hc : shapeEqBiasCond ws bias with
  | error e => rw [hc] at h; simp at h
  | ok c1 =>
    obtain ⟨hlen, hbp⟩ := shapeEqBiasCond_ok hc
    obtain ⟨d, rfl⟩ := List.length_eq_one.1 hlen
    rw [hc] at h
    cases c1 with
    | false => simp at h
    | true =>
      simp at h
      exact ⟨by rw [h], hbp⟩

/-- Claim C9: the `2×2` scale/shift (batch-normalization) branch of
`UnitWise.mvp` is never successfully taken for any weight/bias input:
because the condition compares the weight's shape object against the bias
tensor itself, selecting the branch forces weight shape `[2]` and a
single-element bias, on which `torch.stack` immediately fails; every call
therefore either completes through the `(fan_in+1)`-column concatenation
branch or raises. -/
theorem C9_bn_branch_unreachable (u : UnitWise) (w bias : Tensor)
    (use_inv : Bool) (pw pb : Tensor) :
    UnitWise.mvp u w bias use_inv ≠ Except.ok (MvpBranch.bn, pw, pb) := by
  intro hcontra
  unfold UnitWise.mvp at hcontra
  cases hm : (if use_inv then u.inv else u.data) with
  | none => rw [hm] at hcontra; simp at hcontra
  | some mat =>
    rw [hm] at hcontra
    cases hc : bnBranchCond w.shape bias with
    | error e => rw [hc] at hcontra; simp at hcontra
    | ok c =>
      rw [hc] at hcontra
      cases c with
      | false =>
        cases hv : hstackWB w bias with
        | error e => simp [hv] at hcontra
        | ok v0 =>
          cases hw2 : matmul3 mat (unsqueeze2 v0) with
          | error e => simp [hv, hw2] at hcontra
          | ok wb => simp [hv, hw2] at hcontra
      | true =>
        obtain ⟨hws, hprod⟩ := bnBranchCond_true hc
        have hne : ¬w.shape = bias.shape := by
          rw [hws]
          intro he
          rw [← he] at hprod
          simp at hprod
        simp [hne] at hcontra

/-- Claim C5 (code bug): even for `H` the identity with a secant pair whose
`sᵗy = 1 ≠ 0`, `bfgs_inv_update_` does not terminate normally: after its
`assert`s pass it evaluates `(sty + ytHy) @ sst`, a `torch.matmul` whose
left operand is the 0-dimensional `torch.dot` result, which raises. -/
theorem C5_bfgs_matmul_raises :
    tdot ⟨[1], [1]⟩ ⟨[1], [1]⟩ = Except.ok ⟨[], [(1 : ℚ)]⟩ ∧
    bfgs_inv_update ⟨[1, 1], [1]⟩ ⟨[1], [1]⟩ ⟨[1], [1]⟩ =
      Except.error PyErr.matmulDim := by
  constructor
  · norm_num [tdot]
  · norm_num [bfgs_inv_update, tAllEq, ttranspose, tdot, tmv, touter,
      tensorMatmul, Tensor.add, List.range_succ]

/-- Claim C1 (code bug): `powell_lm_damping_` at `H = [[1]]` (symmetric
positive definite), `s = [0]`, `y = [1]`, `mu1 = 1/5`, `mu2 = 1`: the
original `yᵗHy` equals `1`, but the corrected pair has `sᵗy = -1/5`
against the original `y` (and `-4/25` against the damped `y`), violating
the claimed guarantee `sᵗy ≥ mu1·yᵗHy > 0`. -/
theorem C1_powell_guarantee_violated :
    Matrix.dotProduct (fun _ => (1 : ℚ))
        ((1 : Matrix (Fin 1) (Fin 1) ℚ).mulVec fun _ => (1 : ℚ)) = 1 ∧
    (powell_lm_damping (1 : Matrix (Fin 1) (Fin 1) ℚ) (fun _ => 0)
        (fun _ => 1) (1 / 5) 1).map
      (fun p => (Matrix.dotProduct p.1 (fun _ => (1 : ℚ)),
        Matrix.dotProduct p.1 p.2)) = some (-(1 / 5), -(4 / 25)) ∧
    ¬((1 / 5 : ℚ) * 1 ≤ -(1 / 5)) ∧ ¬((0 : ℚ) < -(1 / 5)) := by
  refine ⟨?_, ?_, by norm_num, by norm_num⟩
  · simp [Matrix.dotProduct, Matrix.mulVec, Fin.sum_univ_one]
  · simp only [powell_lm_damping]
    norm_num [Matrix.dotProduct, Matrix.mulVec, Fin.sum_univ_one,
      Pi.smul_apply, Pi.sub_apply, Pi.add_apply]

theorem cholesky_inv_eq_inv {n : ℕ} (M : Matrix (Fin n) (Fin n) ℚ) :
    cholesky_inv M = M⁻¹ := by
  rw [cholesky_inv, Matrix.inv_def, Ring.inverse_eq_inv]

theorem cholesky_inv_right {n : ℕ} {M N : Matrix (Fin n) (Fin n) ℚ}
    (h : M * N = 1) : cholesky_inv M = N := by
  rw [cholesky_inv_eq_inv]
  exact Matrix.inv_eq_right_inv h

theorem addDiag_one_inv {n : ℕ} {c d : ℚ} (h : (1 + c) * d = 1) :
    cholesky_inv (add_value_to_diagonal (1 : Matrix (Fin n) (Fin n) ℚ) c) =
      d • 1 := by
  apply cholesky_inv_right
  rw [add_value_to_diagonal]
  calc ((1 : Matrix (Fin n) (Fin n) ℚ) + c • 1) * (d • 1)
      = ((1 + c) • (1 : Matrix (Fin n) (Fin n) ℚ)) * (d • 1) := by
        rw [add_smul, one_smul]
    _ = ((1 + c) * d) • ((1 : Matrix (Fin n) (Fin n) ℚ) * 1) := by
        rw [smul_mul_smul_comm]
    _ = 1 := by rw [h, one_smul, Matrix.one_mul]

theorem kronScenarioInv_A :
    kronScenarioInv.A_inv = some ((10 / 11 : ℚ) • 1) := by
  unfold kronScenarioInv kronScenario KronQ.update_inv
  norm_num [Matrix.trace_one, sqrtScenario]
  exact addDiag_one_inv (by norm_num)

theorem kronScenarioInv_B :
    kronScenarioInv.B_inv = some ((10 / 11 : ℚ) • 1) := by
  unfold kronScenarioInv kronScenario KronQ.update_inv
  norm_num [Matrix.trace_one, sqrtScenario]
  exact addDiag_one_inv (by norm_num)

theorem kron_mvp_scenario :
    kronScenarioInv.mvp onesW true = some ((100 / 121 : ℚ) • onesW) := by
  unfold KronQ.mvp
  rw [kronScenarioInv_A, kronScenarioInv_B]
  simp only [if_true]
  rw [Matrix.smul_mul, Matrix.one_mul, Matrix.mul_smul, Matrix.mul_one,
    smul_smul]
  norm_num

/-- Counterexample for C2 as stated: with `A = I₄`, `B = I₃`,
`damping = 0.01`, `update_inv` adds `sqrt(damping) = 0.1` to each factor's
diagonal, so the cached inverses are `(1/1.1)·I`, not `≈ (1/1.01)·I` (off by
more than `1/100`), and the all-ones `mvp` with `use_inv` gives entries
`1/1.21`, not `≈ 1/1.01²` (off by more than `1/10`). -/
theorem C2_end_to_end_counterexample :
    (kronScenarioInv.A_inv.map fun M => M 0 0) = some (10 / 11) ∧
    (kronScenarioInv.B_inv.map fun M => M 0 0) = some (10 / 11) ∧
    (100 / 101 : ℚ) - 10 / 11 > 1 / 100 ∧
    ((kronScenarioInv.mvp onesW true).map fun M => M 0 0) = some (100 / 121) ∧
    (10000 / 10201 : ℚ) - 100 / 121 > 1 / 10 := by
  refine ⟨?_, ?_, by norm_num, ?_, by norm_num⟩
  · rw [kronScenarioInv_A]
    simp [Matrix.smul_apply, Matrix.one_apply_eq]
  · rw [kronScenarioInv_B]
    simp [Matrix.smul_apply, Matrix.one_apply_eq]
  · rw [kron_mvp_scenario]
    simp [Matrix.smul_apply, onesW]

/-- Claim C2 (corrected/amended): in the scenario `A = I₄`, `B = I₃`,
`damping = 0.01`, `update_inv` yields `A_inv = B_inv = (1/1.1)·I` (the
π-heuristic is `1` and `sqrt(damping) = 0.1` is added to each diagonal), and
`mvp` with `use_inv = true` on the all-ones `3×4` gradient yields every
entry `1/1.1² = 1/1.21`. -/
theorem C2_end_to_end_amended :
    kronScenarioInv.A_inv = some ((10 / 11 : ℚ) • 1) ∧
    kronScenarioInv.B_inv = some ((10 / 11 : ℚ) • 1) ∧
    kronScenarioInv.mvp onesW true = some ((100 / 121 : ℚ) • onesW) :=
  ⟨kronScenarioInv_A, kronScenarioInv_B, kron_mvp_scenario⟩

theorem kron_mvp_dense {da db : ℕ} (A : Matrix (Fin da) (Fin da) ℚ)
    (B : Matrix (Fin db) (Fin db) ℚ) (V : Matrix (Fin db) (Fin da) ℚ)
    (hA : A.transpose = A) (i : Fin db) (j : Fin da) :
    (B * V * A) i j =
      (Matrix.kroneckerMap (· * ·) A B).mulVec (vecOfWeight V) (j, i) := by
  simp only [Matrix.mul_apply, Matrix.mulVec, Matrix.dotProduct,
    Matrix.kroneckerMap_apply, vecOfWeight, Fintype.sum_prod_type,
    Finset.sum_mul]
  refine Finset.sum_congr rfl fun l _ => ?_
  refine Finset.sum_congr rfl fun k _ => ?_
  have hlj : A j l = A l j := congrFun (congrFun hA l) j
  rw [← hlj]
  ring

/-- Claim C6 (corrected/amended): for a symmetric input-side factor `A` (all
Kron curvature factors are symmetric) and arbitrary `B` and weight `V`, the
`Kron.mvp` computation `B·V·A` equals the dense Kronecker action
`(A ⊗ B)·vec(V)` under column-major vectorization, without ever
materializing `A ⊗ B`. -/
theorem C6_kron_mvp_amended {da db : ℕ} (A : Matrix (Fin da) (Fin da) ℚ)
    (B : Matrix (Fin db) (Fin db) ℚ) (V : Matrix (Fin db) (Fin da) ℚ)
    (hA : A.transpose = A) :
    KronQ.mvp ⟨A, B, none, none⟩ V false =
      some (Matrix.of fun i j =>
        (Matrix.kroneckerMap (· * ·) A B).mulVec (vecOfWeight V) (j, i)) := by
  unfold KronQ.mvp
  simp only [Bool.false_eq_true, if_false]
  congr 1
  ext i j
  rw [Matrix.of_apply]
  exact kron_mvp_dense A B V hA i j

/-- Witness for the amended C6 at a concrete symmetric `A`. -/
theorem C6_kron_mvp_amended_witness :
    Ac6w.transpose = Ac6w ∧
    KronQ.mvp ⟨Ac6w, Bc6w, none, none⟩ Vc6w false =
      some (Matrix.of fun i j =>
        (Matrix.kroneckerMap (· * ·) Ac6w Bc6w).mulVec (vecOfWeight Vc6w)
          (j, i)) := by
  have hA : Ac6w.transpose = Ac6w := by
    ext i j
    fin_cases i <;> fin_cases j <;> simp [Ac6w]
  exact ⟨hA, C6_kron_mvp_amended Ac6w Bc6w Vc6w hA⟩

/-- Counterexample for C6 as stated (for all *square* matrices): with the
non-symmetric `A = [[0,1],[0,0]]`, `B = [1]`, `V = [[1,0]]`, the code's
`B·V·A` has an entry `1` while the dense `(A ⊗ B)·vec(V)` is the zero
vector, so no reshape can make them agree. -/
theorem C6_kron_mvp_counterexample :
    Ac6.transpose ≠ Ac6 ∧
    (KronQ.mvp ⟨Ac6, Bc6, none, none⟩ Vc6 false).map
      (fun M => (M 0 0, M 0 1)) = some (0, 1) ∧
    (Matrix.kroneckerMap (· * ·) Ac6 Bc6).mulVec (vecOfWeight Vc6) (0, 0) = 0 ∧
    (Matrix.kroneckerMap (· * ·) Ac6 Bc6).mulVec (vecOfWeight Vc6) (1, 0) = 0 ∧
    (1 : ℚ) ≠ 0 := by
  refine ⟨?_, ?_, ?_, ?_, by norm_num⟩
  · intro h
    have h2 := congrFun (congrFun h 1) 0
    simp [Ac6, Matrix.transpose_apply] at h2
  · unfold KronQ.mvp
    simp only [Bool.false_eq_true, if_false, Option.map_some']
    norm_num [Ac6, Bc6, Vc6, Matrix.mul_apply, Fin.sum_univ_succ]
  · norm_num [Ac6, Bc6, Vc6, vecOfWeight, Matrix.mulVec, Matrix.dotProduct,
      Matrix.kroneckerMap_apply, Fintype.sum_prod_type, Fin.sum_univ_succ]
  · norm_num [Ac6, Bc6, Vc6, vecOfWeight, Matrix.mulVec, Matrix.dotProduct,
      Matrix.kroneckerMap_apply, Fintype.sum_prod_type, Fin.sum_univ_succ]

/-- Witness for C9 at a concrete realistic input (a `1×2` unit block, a
`(1,2)` weight gradient and a 1-element bias gradient). -/
theorem C9_bn_branch_unreachable_witness :
    UnitWise.mvp ⟨some ⟨[1, 2, 2], [1, 0, 0, 1]⟩, none⟩ ⟨[1, 2], [1, 2]⟩
        ⟨[1], [3]⟩ false ≠
      Except.ok (MvpBranch.bn, ⟨[1], [1]⟩, ⟨[1], [3]⟩) :=
  C9_bn_branch_unreachable ⟨some ⟨[1, 2, 2], [1, 0, 0, 1]⟩, none⟩
    ⟨[1, 2], [1, 2]⟩ ⟨[1], [3]⟩ false ⟨[1], [1]⟩ ⟨[1], [3]⟩
